import Mathlib

/-!
Verification development for the py_surrafication core: the assignment
solver (`assignment.py`), the grid partitioner (`core.py`) and the frame
interpolator/renderer (`animate.py`), shallowly embedded in Lean.
Python floats are modelled as exact rationals (solver, frame counts) or
reals (renderer, whose code uses `math.sin`); numpy arrays become lists
or index functions.
-/

/-- Result of a Python call: a value, or an uncaught exception
(`ValueError`, `ZeroDivisionError`, ...), identified by a message. -/
inductive PyResult (α : Type) where
  | ok (a : α) : PyResult α
  | error (msg : String) : PyResult α
deriving DecidableEq

/-- Squared Euclidean distance of two RGB triples, as in
`cdist(metric = sqeuclidean)` on the `(N, 3)` feature rows. -/
def sqDist3 (a b : ℚ × ℚ × ℚ) : ℚ :=
  (a.1 - b.1) ^ 2 + (a.2.1 - b.2.1) ^ 2 + (a.2.2 - b.2.2) ^ 2

/-- Squared Euclidean distance of two position pairs, as in
`cdist(metric = sqeuclidean)` on the `(N, 2)` position rows. -/
def sqDist2 (a b : ℚ × ℚ) : ℚ :=
  (a.1 - b.1) ^ 2 + (a.2.1 - b.2.1) ^ 2

/-- Embedding of `compute_cost_matrix` from `assignment.py`: the
`(N, N)` matrix `(1 - p) * color_dist + p * spatial_dist` as a function
of the two indices. -/
def compute_cost_matrix (srcF tgtF : ℕ → ℚ × ℚ × ℚ) (srcP tgtP : ℕ → ℚ × ℚ)
    (proximity_importance : ℚ) : ℕ → ℕ → ℚ :=
  fun i j =>
    (1 - proximity_importance) * sqDist3 (srcF i) (tgtF j) +
      proximity_importance * sqDist2 (srcP i) (tgtP j)

/-- Luminance of an RGB triple, `0.299 * R + 0.587 * G + 0.114 * B`,
as computed in the `sort` branch of `solve_assignment`. -/
def luminance (c : ℚ × ℚ × ℚ) : ℚ :=
  299 / 1000 * c.1 + 587 / 1000 * c.2.1 + 114 / 1000 * c.2.2

/-- Lexicographic order on `(luminance, y, x)` sort keys: the comparison
realised by `np.lexsort((x, y, lum))`, which sorts by `lum` first, then
`y`, then `x`. -/
def keyLEP (a b : ℚ × ℚ × ℚ) : Prop :=
  a.1 < b.1 ∨ (a.1 = b.1 ∧ (a.2.1 < b.2.1 ∨ (a.2.1 = b.2.1 ∧ a.2.2 ≤ b.2.2)))

instance (a b : ℚ × ℚ × ℚ) : Decidable (keyLEP a b) := by
  unfold keyLEP; infer_instance

/-- Embedding of `np.lexsort((pos_x, pos_y, lum))` applied to indices
`0, ..., n-1`: the list of indices stably sorted by ascending
`(luminance, y, x)` key.  `np.lexsort` performs a stable sort; a stable
sort under a total preorder is unique, so `List.insertionSort` (stable)
realises it. -/
def lexsortIdx (n : ℕ) (key : ℕ → ℚ × ℚ × ℚ) : List ℕ :=
  (List.range n).insertionSort (fun a b => keyLEP (key a) (key b))

/-- Reading entry `i` of an integer numpy array that was filled by
fancy-index scatter `arr[keys] = values` on top of a constant default
(`np.zeros` or `np.full(-1)`): the value paired with the first
occurrence of key `i`, the default if `i` was never a key. -/
def lookupD (pairs : List (ℕ × ℕ)) (d : ℤ) (i : ℕ) : ℤ :=
  match pairs.find? (fun p => p.1 == i) with
  | some p => (p.2 : ℤ)
  | none => d

/-- The full integer array produced by the scatter: entry `i` for each
`i < n`. -/
def assignmentOf (pairs : List (ℕ × ℕ)) (d : ℤ) (n : ℕ) : List ℤ :=
  (List.range n).map (lookupD pairs d)

/-- Total cost of an assignment list under a cost matrix:
`sum over i of cost i (l[i])`. -/
def totalCost (cost : ℕ → ℕ → ℚ) (l : List ℕ) : ℚ :=
  (l.enum.map (fun p => cost p.1 p.2)).sum

/-- Total cost of an integer assignment array (as stored in the numpy
result) under a cost matrix; entries are read back as naturals. -/
def totalCostZ (cost : ℕ → ℕ → ℚ) (l : List ℤ) : ℚ :=
  (l.enum.map (fun p => cost p.1 p.2.toNat)).sum

/-- First minimiser of `f` among `init` and the elements of `l`. -/
def pickMin {α : Type} (f : α → ℚ) (init : α) (l : List α) : α :=
  l.foldl (fun b q => if f q < f b then q else b) init

/-- Modelled contract of `scipy.optimize.linear_sum_assignment` on a
square `n × n` cost matrix (external library, not part of this
repository): it returns `row_ind = arange(n)` and a `col_ind` that is a
permutation of `[0, n)` minimising `cost[row_ind, col_ind].sum()`; the
embedding realises the documented minimum by exhaustive search over all
permutations of `[0, n)`, starting from the identity. -/
def linear_sum_assignment (cost : ℕ → ℕ → ℚ) (n : ℕ) : List ℕ × List ℕ :=
  (List.range n,
    pickMin (totalCost cost) (List.range n) (List.range n).permutations)

/-- Embedding of `np.argsort(cost_matrix[i])`: target indices sorted by
ascending cost in row `i` (ties resolved deterministically by index; the
numpy tie order is unspecified and no claim depends on it). -/
def argsortRow (cost : ℕ → ℕ → ℚ) (n : ℕ) (i : ℕ) : List ℕ :=
  (List.range n).insertionSort
    (fun a b => cost i a < cost i b ∨ (cost i a = cost i b ∧ a ≤ b))

/-- Embedding of the claiming loop shared by the `greedy` and `approx`
branches of `solve_assignment`: visit the sources in `order`; each
source claims the first not-yet-taken target of its cost-sorted row.
The accumulator holds the `(source, target)` pairs claimed so far (the
code's `assignment[i] = t` writes together with its `taken_targets`
set); a source for which every target is already taken is skipped,
leaving its entry at the `-1` it was initialised with. -/
def greedyGo (cost : ℕ → ℕ → ℚ) (n : ℕ) :
    List ℕ → List (ℕ × ℕ) → List (ℕ × ℕ)
  | [], acc => acc
  | i :: rest, acc =>
    match (argsortRow cost n i).find?
        (fun t => !((acc.map Prod.snd).contains t)) with
    | some t => greedyGo cost n rest (acc ++ [(i, t)])
    | none => greedyGo cost n rest acc

/-- Embedding of `solve_assignment` from `assignment.py`.  `n` is
`src_features.shape[0]`.  `shuffled` is the visitation order produced by
`random.shuffle(list(range(rows)))` in the `greedy` branch: the Python
function takes no random source, it draws from the interpreter's global
`random` generator, so the drawn order enters the embedding as an extra
explicit input (always a permutation of `[0, n)`). -/
def solve_assignment (n : ℕ) (srcF : ℕ → ℚ × ℚ × ℚ) (srcP : ℕ → ℚ × ℚ)
    (tgtF : ℕ → ℚ × ℚ × ℚ) (tgtP : ℕ → ℚ × ℚ)
    (algorithm : String) (proximity_importance : ℚ)
    (shuffled : List ℕ) : PyResult (List ℤ) :=
  if algorithm = "sort" then
    let srcKeys := lexsortIdx n (fun i => (luminance (srcF i), srcP i))
    let tgtKeys := lexsortIdx n (fun i => (luminance (tgtF i), tgtP i))
    PyResult.ok (assignmentOf (srcKeys.zip tgtKeys) 0 n)
  else
    let cost := compute_cost_matrix srcF tgtF srcP tgtP proximity_importance
    if algorithm = "optimal" then
      let rc := linear_sum_assignment cost n
      PyResult.ok (assignmentOf (rc.1.zip rc.2) 0 n)
    else if algorithm = "greedy" then
      PyResult.ok (assignmentOf (greedyGo cost n shuffled []) (-1) n)
    else if algorithm = "approx" then
      PyResult.ok (assignmentOf (greedyGo cost n (List.range n) []) (-1) n)
    else
      PyResult.error ("Unknown algorithm")

/-- Result of `get_cells` from `core.py`: the common cell shape, the
`N = R * R` cell pixel blocks in row-major order (cell `k` maps its
local coordinate `(i, j)` to a pixel of the input image), and the
parallel list of normalized `(y, x)` cell centers. -/
structure CellData where
  cellH : ℕ
  cellW : ℕ
  cells : List (ℕ × ℕ → ℚ × ℚ × ℚ)
  positions : List (ℚ × ℚ)

/-- Embedding of `get_cells` from `core.py` on an `h × w × 3` image.
`grid_res = 0` hits `h // grid_res` and raises `ZeroDivisionError`;
`grid_res < 0` reaches `reshape(grid_res, cell_h, grid_res, cell_w, c)`
with negative dimensions and raises `ValueError`.  For `grid_res >= 1`
the image is truncated to `(h // R) * R` by `(w // R) * R`; when a
truncated axis is empty (`cell_h = 0` or `cell_w = 0`), the final
`grid.reshape(-1, cell_h, cell_w, c)` raises `ValueError`, since numpy
cannot resolve a `-1` dimension when the product of the known
dimensions is `0`.  Otherwise the reshape and transpose put cell
`k = row * R + col` at pixel range
`[row * cellH, (row+1) * cellH) x [col * cellW, (col+1) * cellW)`, and
`np.linspace(0.5 / R, 1 - 0.5 / R, R)` under exact arithmetic places
the centers at `((row + 0.5) / R, (col + 0.5) / R)`. -/
def get_cells (image : ℕ → ℕ → ℚ × ℚ × ℚ) (h w : ℕ) (grid_res : ℤ) :
    PyResult CellData :=
  if grid_res = 0 then
    PyResult.error ("ZeroDivisionError")
  else if grid_res < 0 then
    PyResult.error ("ValueError: negative dimensions in reshape")
  else
    let R := grid_res.toNat
    let ch := h / R
    let cw := w / R
    if ch = 0 ∨ cw = 0 then
      PyResult.error ("ValueError: cannot reshape array of size 0")
    else
      PyResult.ok
        ⟨ch, cw,
          (List.range (R * R)).map (fun k =>
            fun p => image (k / R * ch + p.1) (k % R * cw + p.2)),
          (List.range (R * R)).map (fun k =>
            ((((k / R : ℕ) : ℚ) + 1 / 2) / (R : ℚ),
              (((k % R : ℕ) : ℚ) + 1 / 2) / (R : ℚ)))⟩

/-- Truncation toward zero of a rational, as Python's `int()` conversion
applied to a float. -/
def pyTruncQ (q : ℚ) : ℤ :=
  if q < 0 then -(Int.floor (-q)) else Int.floor q

/-- An RGB pixel value of the renderer, in real arithmetic (the Python
code computes with floats and `math.sin`). -/
abbrev Color := ℝ × ℝ × ℝ

noncomputable section

/-- Truncation toward zero of a real, as `int()` / `.astype(int)`. -/
def pyTruncR (x : ℝ) : ℤ :=
  if x < 0 then -(Int.floor (-x)) else Int.floor x

/-- Embedding of `ease_in_out` from `animate.py`: smoothstep easing
`t * t * (3 - 2 * t)`. -/
def ease_in_out (t : ℝ) : ℝ := t * t * (3 - 2 * t)

/-- Rendered particle side length: `max(1, int(cell_dim * scale))`. -/
def partSize (cellDim : ℕ) (scale : ℝ) : ℕ :=
  (max 1 (pyTruncR ((cellDim : ℝ) * scale))).toNat

/-- Per-cell jitter offsets `(np.random.rand(N, 2) - 0.5) * 2 *
jitter_amount`.  `rand` is the ambient draw from numpy's global
generator (the code passes no random source), each component in
`[0, 1)`. -/
def jitterOffset (rand : ℕ → ℝ × ℝ) (jitterAmount : ℝ) (i : ℕ) : ℝ × ℝ :=
  (((rand i).1 - 1 / 2) * 2 * jitterAmount,
    ((rand i).2 - 1 / 2) * 2 * jitterAmount)

/-- Interpolated, jittered normalized center of cell `i` at time `t`:
`(1 - t_e) * start + t_e * end + offset * sin(pi * t)` per axis. -/
def currentPos (srcPos endPos : ℕ → ℝ × ℝ) (off : ℕ → ℝ × ℝ) (t : ℝ)
    (i : ℕ) : ℝ × ℝ :=
  ((1 - ease_in_out t) * (srcPos i).1 + ease_in_out t * (endPos i).1 +
      (off i).1 * Real.sin (Real.pi * t),
    (1 - ease_in_out t) * (srcPos i).2 + ease_in_out t * (endPos i).2 +
      (off i).2 * Real.sin (Real.pi * t))

/-- Top-left paste corner in pixels: `(center_pixel - size / 2)`
truncated toward zero on each axis. -/
def topLeft (outputSize partH partW : ℕ) (pos : ℝ × ℝ) : ℤ × ℤ :=
  (pyTruncR (pos.1 * (outputSize : ℝ) - (partH : ℝ) / 2),
    pyTruncR (pos.2 * (outputSize : ℝ) - (partW : ℝ) / 2))

/-- PIL `Image.blend(c1, c2, a)` per channel: `(1 - a) * c1 + a * c2`
(modelled in exact arithmetic, without the uint8 re-quantization). -/
def blendColor (a : ℝ) (c1 c2 : Color) : Color :=
  ((1 - a) * c1.1 + a * c2.1, (1 - a) * c1.2.1 + a * c2.2.1,
    (1 - a) * c1.2.2 + a * c2.2.2)

/-- Alpha mask of every particle: all-opaque for `shape = square`; the
PIL `ImageDraw.ellipse((0, 0, w, h))` disc — external library geometry,
modelled as the given `ellipse` data — for `shape = circle`. -/
def particleMask (shape : String) (ellipse : ℕ → ℕ → ℕ × ℕ → Bool)
    (ph pw : ℕ) : ℕ × ℕ → Bool :=
  if shape = "circle" then ellipse ph pw else fun q => true

/-- The particle composited for one cell at blend fraction
`ease_in_out t * color_mix`: the code blends only when `color_mix > 0`
and the fraction exceeds `0.01`, and otherwise pastes the source
particle unmodified. -/
def particleAt (colorMix : ℝ) (t : ℝ) (srcP tgtP : ℕ × ℕ → Color) :
    ℕ × ℕ → Color :=
  if 0 < colorMix ∧ 1 / 100 < ease_in_out t * colorMix then
    fun q => blendColor (ease_in_out t * colorMix) (srcP q) (tgtP q)
  else srcP

/-- Sequential PIL pasting onto a black canvas: pixel `q` of the frame
is the color of the last particle (in ascending cell index) whose
bounds and alpha mask cover `q`, black if none does. -/
def compositeFrame (n partH partW : ℕ) (mask : ℕ × ℕ → Bool)
    (parts : ℕ → ℕ × ℕ → Color) (tl : ℕ → ℤ × ℤ) : ℤ × ℤ → Color :=
  fun q =>
    (List.range n).foldl (fun c i =>
      let r := q.1 - (tl i).1
      let s := q.2 - (tl i).2
      if 0 ≤ r ∧ r < (partH : ℤ) ∧ 0 ≤ s ∧ s < (partW : ℤ) ∧
          mask (r.toNat, s.toNat) = true then
        parts i (r.toNat, s.toNat)
      else c) (0, 0, 0)

/-- Embedding of the inner `render_frame(t)` of `generate_frames`:
composite every cell's particle (blended or not) at its interpolated,
jittered, truncated position. -/
def render_frame (n outputSize partH partW : ℕ) (srcPos endPos : ℕ → ℝ × ℝ)
    (off : ℕ → ℝ × ℝ) (mask : ℕ × ℕ → Bool)
    (srcParts tgtParts : ℕ → ℕ × ℕ → Color) (colorMix : ℝ) (t : ℝ) :
    ℤ × ℤ → Color :=
  compositeFrame n partH partW mask
    (fun i => particleAt colorMix t (srcParts i) (tgtParts i))
    (fun i => topLeft outputSize partH partW (currentPos srcPos endPos off t i))

/-- Rendering at time `t` with every cell's particle replaced by the
blend of its source and target particles at fraction
`ease_in_out t * color_mix`; this is the output the specification
describes for every positive blend fraction. -/
def blendedRender (n outputSize partH partW : ℕ) (srcPos endPos : ℕ → ℝ × ℝ)
    (off : ℕ → ℝ × ℝ) (mask : ℕ × ℕ → Bool)
    (srcParts tgtParts : ℕ → ℕ × ℕ → Color) (colorMix : ℝ) (t : ℝ) :
    ℤ × ℤ → Color :=
  compositeFrame n partH partW mask
    (fun i q => blendColor (ease_in_out t * colorMix) (srcParts i q) (tgtParts i q))
    (fun i => topLeft outputSize partH partW (currentPos srcPos endPos off t i))

/-- Rendering at time `t` using only the unmodified source particles. -/
def sourceRender (n outputSize partH partW : ℕ) (srcPos endPos : ℕ → ℝ × ℝ)
    (off : ℕ → ℝ × ℝ) (mask : ℕ × ℕ → Bool)
    (srcParts : ℕ → ℕ × ℕ → Color) (t : ℝ) : ℤ × ℤ → Color :=
  compositeFrame n partH partW mask srcParts
    (fun i => topLeft outputSize partH partW (currentPos srcPos endPos off t i))

/-- The frame `generate_frames` renders at a given time `t`: its inner
`render_frame` closure with every precomputed quantity (particle sizes,
particles, mask, end positions, jitter offsets) assembled from the
generator's arguments. -/
def frameAt (n : ℕ) (srcCells : ℕ → ℕ × ℕ → Color)
    (srcPos tgtPos : ℕ → ℝ × ℝ) (tgtCells : ℕ → ℕ × ℕ → Color)
    (assignment : ℕ → ℕ) (outputSize : ℕ) (jitterAmount : ℝ)
    (cellH cellW : ℕ) (particleScale : ℝ) (shape : String) (colorMix : ℝ)
    (rand : ℕ → ℝ × ℝ)
    (resample : (ℕ × ℕ → Color) → ℕ → ℕ → (ℕ × ℕ → Color))
    (ellipse : ℕ → ℕ → ℕ × ℕ → Bool) (t : ℝ) : ℤ × ℤ → Color :=
  render_frame n outputSize (partSize cellH particleScale)
    (partSize cellW particleScale) srcPos (fun i => tgtPos (assignment i))
    (jitterOffset rand jitterAmount)
    (particleMask shape ellipse (partSize cellH particleScale)
      (partSize cellW particleScale))
    (fun i => resample (srcCells i) (partSize cellW particleScale)
      (partSize cellH particleScale))
    (fun i => resample (tgtCells (assignment i)) (partSize cellW particleScale)
      (partSize cellH particleScale))
    colorMix t

/-- Embedding of `generate_frames` from `animate.py` as the finite list
of frames the generator yields: `int(hold_start * fps)` copies of the
`t = 0` frame, then `int(duration * fps)` animated frames at
`t = f / (F - 1)` (or `t = 1` when `F = 1`), then `int(hold_end * fps)`
copies of the `t = 1` frame.  `rand` is the ambient
`np.random.rand(N, 2)` draw; `resample` is PIL's LANCZOS resize and
`ellipse` PIL's disc mask, both external library operations modelled as
given data. -/
def generate_frames (n : ℕ) (srcCells : ℕ → ℕ × ℕ → Color)
    (srcPos tgtPos : ℕ → ℝ × ℝ) (tgtCells : ℕ → ℕ × ℕ → Color)
    (assignment : ℕ → ℕ) (duration fps : ℚ) (outputSize : ℕ)
    (jitterAmount : ℝ) (cellH cellW : ℕ) (particleScale : ℝ)
    (shape : String) (colorMix : ℝ) (holdStart holdEnd : ℚ)
    (rand : ℕ → ℝ × ℝ)
    (resample : (ℕ × ℕ → Color) → ℕ → ℕ → (ℕ × ℕ → Color))
    (ellipse : ℕ → ℕ → ℕ × ℕ → Bool) : List (ℤ × ℤ → Color) :=
  let numFrames := (pyTruncQ (duration * fps)).toNat
  let startHold := (pyTruncQ (holdStart * fps)).toNat
  let endHold := (pyTruncQ (holdEnd * fps)).toNat
  let rf := frameAt n srcCells srcPos tgtPos tgtCells assignment outputSize
    jitterAmount cellH cellW particleScale shape colorMix rand resample ellipse
  List.replicate startHold (rf 0) ++
    (List.range numFrames).map (fun (f : ℕ) =>
      rf (if 1 < numFrames then (f : ℝ) / ((numFrames : ℝ) - 1) else 1)) ++
    List.replicate endHold (rf 1)

end

/-! Concrete data used by witnesses and counterexamples. -/

/-- Constant black source features. -/
def wSrcF : ℕ → ℚ × ℚ × ℚ := fun i => (0, 0, 0)

/-- Target features: cell 0 black, all others red. -/
def wTgtF : ℕ → ℚ × ℚ × ℚ := fun i => if i = 0 then (0, 0, 0) else (1, 0, 0)

/-- Constant positions. -/
def wPos : ℕ → ℚ × ℚ := fun i => (0, 0)

/-- Constant black test image. -/
def wImage : ℕ → ℕ → ℚ × ℚ × ℚ := fun i j => (0, 0, 0)

/-- Constant white test image. -/
def wImage2 : ℕ → ℕ → ℚ × ℚ × ℚ := fun i j => (1, 1, 1)

/-- Constant pixel data for animation cells. -/
noncomputable def wCellQ : ℕ → ℕ × ℕ → Color := fun i q => (0, 0, 0)

/-- Identity stand-in for the PIL resample data. -/
noncomputable def wResample : (ℕ × ℕ → Color) → ℕ → ℕ → (ℕ × ℕ → Color) :=
  fun c w h => c

/-- All-opaque stand-in for the PIL ellipse mask data. -/
def wEllipse : ℕ → ℕ → ℕ × ℕ → Bool := fun w h q => true

/-- Constant centered positions for the renderer. -/
noncomputable def wPosR : ℕ → ℝ × ℝ := fun i => (1 / 2, 1 / 2)

/-- Zero offsets / zero random draws for the renderer. -/
noncomputable def wZeroR : ℕ → ℝ × ℝ := fun i => (0, 0)

/-- All-opaque particle mask. -/
def wMask : ℕ × ℕ → Bool := fun q => true

/-- Constant black source particles. -/
noncomputable def wSrcPart : ℕ → ℕ × ℕ → Color := fun i q => (0, 0, 0)

/-- Constant white target particles. -/
noncomputable def wTgtPart : ℕ → ℕ × ℕ → Color := fun i q => (1, 1, 1)

/-! Helper lemmas about the scatter/lookup encoding of integer numpy
arrays and about the exhaustive minimum used to model
`linear_sum_assignment`. -/

lemma lookupD_cons_self (a b : ℕ) (ps : List (ℕ × ℕ)) (d : ℤ) :
    lookupD ((a, b) :: ps) d a = (b : ℤ) := by
  simp [lookupD, List.find?_cons_of_pos]

lemma lookupD_cons_ne (x a b : ℕ) (ps : List (ℕ × ℕ)) (d : ℤ) (h : x ≠ a) :
    lookupD ((a, b) :: ps) d x = lookupD ps d x := by
  unfold lookupD
  rw [List.find?_cons_of_neg]
  simp [Ne.symm h]

lemma map_lookupD (d : ℤ) (ps : List (ℕ × ℕ))
    (h : (ps.map Prod.fst).Nodup) :
    (ps.map Prod.fst).map (lookupD ps d) = (ps.map Prod.snd).map Int.ofNat := by
  induction ps with
  | nil => rfl
  | cons hd tl ih =>
    obtain ⟨a, b⟩ := hd
    simp only [List.map_cons] at h ⊢
    have ha : a ∉ tl.map Prod.fst := (List.nodup_cons.1 h).1
    have ht : (tl.map Prod.fst).Nodup := (List.nodup_cons.1 h).2
    rw [lookupD_cons_self]
    have htail : (tl.map Prod.fst).map (lookupD ((a, b) :: tl) d) =
        (tl.map Prod.fst).map (lookupD tl d) := by
      refine List.map_congr_left (fun x hx => ?_)
      exact lookupD_cons_ne x a b tl d (fun hxa => ha (hxa ▸ hx))
    rw [htail, ih ht]
    rfl

lemma assignmentOf_perm (ps : List (ℕ × ℕ)) (d : ℤ) (n : ℕ)
    (hk : (ps.map Prod.fst).Perm (List.range n))
    (hv : (ps.map Prod.snd).Perm (List.range n)) :
    (assignmentOf ps d n).Perm ((List.range n).map Int.ofNat) := by
  have hnd : (ps.map Prod.fst).Nodup := hk.symm.nodup (List.nodup_range n)
  have h1 : (assignmentOf ps d n).Perm ((ps.map Prod.fst).map (lookupD ps d)) :=
    hk.symm.map (lookupD ps d)
  rw [map_lookupD d ps hnd] at h1
  exact h1.trans (hv.map Int.ofNat)

lemma perm_range_of (l : List ℕ) (n : ℕ) (hnd : l.Nodup)
    (hlt : ∀ t ∈ l, t < n) (hlen : l.length = n) :
    l.Perm (List.range n) :=
  (List.subperm_of_subset hnd
      (fun x hx => List.mem_range.2 (hlt x hx))).perm_of_length_le
    (by simp [hlen])

lemma pickMin_spec {α : Type} (f : α → ℚ) (l : List α) (init : α) :
    pickMin f init l ∈ init :: l ∧
      ∀ x ∈ init :: l, f (pickMin f init l) ≤ f x := by
  induction l generalizing init with
  | nil =>
    refine ⟨List.mem_cons_self _ _, fun x hx => ?_⟩
    simp only [List.mem_singleton] at hx
    exact hx ▸ le_rfl
  | cons q l ih =>
    have hstep : pickMin f init (q :: l) =
        pickMin f (if f q < f init then q else init) l := rfl
    obtain ⟨hmem, hle⟩ := ih (if f q < f init then q else init)
    constructor
    · rw [hstep]
      rcases List.mem_cons.1 hmem with h | h
      · rw [h]
        split
        · exact List.mem_cons_of_mem _ (List.mem_cons_self _ _)
        · exact List.mem_cons_self _ _
      · exact List.mem_cons_of_mem _ (List.mem_cons_of_mem _ h)
    · intro x hx
      rw [hstep]
      rcases List.mem_cons.1 hx with rfl | hx
      · refine le_trans (hle _ (List.mem_cons_self _ _)) ?_
        split
        · next hq => exact le_of_lt hq
        · exact le_rfl
      rcases List.mem_cons.1 hx with rfl | hx
      · refine le_trans (hle _ (List.mem_cons_self _ _)) ?_
        split
        · exact le_rfl
        · next hq => exact le_of_not_lt hq
      · exact hle x (List.mem_cons_of_mem _ hx)

lemma lsa_snd_perm (cost : ℕ → ℕ → ℚ) (n : ℕ) :
    (linear_sum_assignment cost n).2.Perm (List.range n) := by
  have h := (pickMin_spec (totalCost cost) (List.range n).permutations
    (List.range n)).1
  have h2 : (linear_sum_assignment cost n).2 =
      pickMin (totalCost cost) (List.range n) (List.range n).permutations := rfl
  rw [h2]
  rcases List.mem_cons.1 h with h | h
  · rw [h]
  · exact List.mem_permutations.1 h

lemma lsa_min (cost : ℕ → ℕ → ℚ) (n : ℕ) (l : List ℕ)
    (hl : l.Perm (List.range n)) :
    totalCost cost (linear_sum_assignment cost n).2 ≤ totalCost cost l :=
  (pickMin_spec (totalCost cost) (List.range n).permutations
    (List.range n)).2 l
    (List.mem_cons_of_mem _ (List.mem_permutations.2 hl))

lemma assignmentOf_zip_range (vs : List ℕ) (n : ℕ) (h : vs.length = n) :
    assignmentOf ((List.range n).zip vs) 0 n = vs.map Int.ofNat := by
  have hkeys : ((List.range n).zip vs).map Prod.fst = List.range n :=
    List.map_fst_zip _ _ (by simp [h])
  have hvals : ((List.range n).zip vs).map Prod.snd = vs :=
    List.map_snd_zip _ _ (by simp [h])
  have hmain := map_lookupD 0 ((List.range n).zip vs)
    (by rw [hkeys]; exact List.nodup_range n)
  rw [hkeys, hvals] at hmain
  exact hmain

/-! Lemmas about the greedy claiming loop. -/

lemma find_free_some (cost : ℕ → ℕ → ℚ) (n i : ℕ) (taken : List ℕ)
    (hlen : taken.length < n) :
    ∃ t0, (argsortRow cost n i).find? (fun t => !(taken.contains t)) = some t0 ∧
      t0 < n ∧ t0 ∉ taken := by
  have hperm : (argsortRow cost n i).Perm (List.range n) :=
    List.perm_insertionSort _ _
  cases hfind : (argsortRow cost n i).find? (fun t => !(taken.contains t)) with
  | none =>
    exfalso
    have hall := List.find?_eq_none.1 hfind
    have hsub : List.range n ⊆ taken := by
      intro x hx
      have hx2 : x ∈ argsortRow cost n i := hperm.mem_iff.2 hx
      have := hall x hx2
      simpa using this
    have := (List.subperm_of_subset (List.nodup_range n) hsub).length_le
    simp at this
    omega
  | some t0 =>
    refine ⟨t0, rfl, ?_, ?_⟩
    · have := List.mem_of_find?_eq_some hfind
      exact List.mem_range.1 (hperm.mem_iff.1 this)
    · have := List.find?_some hfind
      simpa using this

lemma greedyGo_spec (cost : ℕ → ℕ → ℚ) (n : ℕ) (order : List ℕ) :
    ∀ (acc : List (ℕ × ℕ)),
      ((acc.map Prod.snd).Nodup) →
      (∀ t ∈ acc.map Prod.snd, t < n) →
      (acc.length + order.length ≤ n) →
      ((greedyGo cost n order acc).map Prod.fst = acc.map Prod.fst ++ order ∧
        ((greedyGo cost n order acc).map Prod.snd).Nodup ∧
        (∀ t ∈ (greedyGo cost n order acc).map Prod.snd, t < n) ∧
        (greedyGo cost n order acc).length = acc.length + order.length) := by
  induction order with
  | nil =>
    intro acc h1 h2 h3
    refine ⟨by simp [greedyGo], by simpa [greedyGo] using h1,
      by simpa [greedyGo] using h2, by simp [greedyGo]⟩
  | cons i rest ih =>
    intro acc h1 h2 h3
    have hlt : (acc.map Prod.snd).length < n := by
      simp only [List.length_map]
      simp only [List.length_cons] at h3
      omega
    obtain ⟨t0, hf, ht0n, ht0m⟩ := find_free_some cost n i (acc.map Prod.snd) hlt
    have hstep : greedyGo cost n (i :: rest) acc =
        greedyGo cost n rest (acc ++ [(i, t0)]) := by
      simp only [greedyGo, hf]
    rw [hstep]
    have h1' : ((acc ++ [(i, t0)]).map Prod.snd).Nodup := by
      simp only [List.map_append, List.map_cons, List.map_nil]
      rw [List.nodup_append]
      exact ⟨h1, List.nodup_singleton _, by simpa using ht0m⟩
    have h2' : ∀ t ∈ (acc ++ [(i, t0)]).map Prod.snd, t < n := by
      intro t ht
      simp only [List.map_append, List.map_cons, List.map_nil,
        List.mem_append, List.mem_singleton] at ht
      rcases ht with ht | rfl
      · exact h2 t ht
      · exact ht0n
    have h3' : (acc ++ [(i, t0)]).length + rest.length ≤ n := by
      simp only [List.length_append, List.length_cons, List.length_nil]
      simp only [List.length_cons] at h3
      omega
    obtain ⟨c1, c2, c3, c4⟩ := ih (acc ++ [(i, t0)]) h1' h2' h3'
    refine ⟨?_, c2, c3, ?_⟩
    · rw [c1]
      simp
    · rw [c4]
      simp only [List.length_append, List.length_cons, List.length_nil]
      omega

lemma greedy_perm (cost : ℕ → ℕ → ℚ) (n : ℕ) (order : List ℕ)
    (horder : order.Perm (List.range n)) :
    (assignmentOf (greedyGo cost n order []) (-1) n).Perm
      ((List.range n).map Int.ofNat) := by
  have hlen : order.length = n := by simpa using horder.length_eq
  obtain ⟨hfst, hnd, hltn, hl⟩ :=
    greedyGo_spec cost n order [] (by simp) (by simp) (by simp [hlen])
  have hfst' : (greedyGo cost n order []).map Prod.fst = order := by
    simpa using hfst
  have hkeys : ((greedyGo cost n order []).map Prod.fst).Perm (List.range n) := by
    rw [hfst']
    exact horder
  have hvlen : ((greedyGo cost n order []).map Prod.snd).length = n := by
    simp only [List.length_map]
    simpa [hlen] using hl
  have hvals : ((greedyGo cost n order []).map Prod.snd).Perm (List.range n) :=
    perm_range_of _ n hnd hltn hvlen
  exact assignmentOf_perm _ _ _ hkeys hvals

/-! Lemmas about the lexsort-based `sort` strategy. -/

lemma lexsortIdx_perm (n : ℕ) (key : ℕ → ℚ × ℚ × ℚ) :
    (lexsortIdx n key).Perm (List.range n) :=
  List.perm_insertionSort _ _

lemma lexsortIdx_length (n : ℕ) (key : ℕ → ℚ × ℚ × ℚ) :
    (lexsortIdx n key).length = n := by
  simpa using (lexsortIdx_perm n key).length_eq

lemma keyLEP_trans (a b c : ℚ × ℚ × ℚ) (h1 : keyLEP a b) (h2 : keyLEP b c) :
    keyLEP a c := by
  unfold keyLEP at *
  rcases h1 with h1 | ⟨e1, h1⟩
  · rcases h2 with h2 | ⟨e2, h2⟩
    · exact Or.inl (h1.trans h2)
    · exact Or.inl (e2 ▸ h1)
  · rcases h2 with h2 | ⟨e2, h2⟩
    · exact Or.inl (e1 ▸ h2)
    · refine Or.inr ⟨e1.trans e2, ?_⟩
      rcases h1 with h1 | ⟨f1, h1⟩
      · rcases h2 with h2 | ⟨f2, h2⟩
        · exact Or.inl (h1.trans h2)
        · exact Or.inl (f2 ▸ h1)
      · rcases h2 with h2 | ⟨f2, h2⟩
        · exact Or.inl (f1 ▸ h2)
        · exact Or.inr ⟨f1.trans f2, h1.trans h2⟩

lemma keyLEP_total (a b : ℚ × ℚ × ℚ) : keyLEP a b ∨ keyLEP b a := by
  unfold keyLEP
  rcases lt_trichotomy a.1 b.1 with h | h | h
  · exact Or.inl (Or.inl h)
  · rcases lt_trichotomy a.2.1 b.2.1 with h2 | h2 | h2
    · exact Or.inl (Or.inr ⟨h, Or.inl h2⟩)
    · rcases le_total a.2.2 b.2.2 with h3 | h3
      · exact Or.inl (Or.inr ⟨h, Or.inr ⟨h2, h3⟩⟩)
      · exact Or.inr (Or.inr ⟨h.symm, Or.inr ⟨h2.symm, h3⟩⟩)
    · exact Or.inr (Or.inr ⟨h.symm, Or.inl h2⟩)
  · exact Or.inr (Or.inl h)

lemma lexsortIdx_sorted (n : ℕ) (key : ℕ → ℚ × ℚ × ℚ) :
    ((lexsortIdx n key).map key).Pairwise keyLEP := by
  rw [List.pairwise_map]
  have htot : IsTotal ℕ (fun a b => keyLEP (key a) (key b)) :=
    ⟨fun a b => keyLEP_total (key a) (key b)⟩
  have htr : IsTrans ℕ (fun a b => keyLEP (key a) (key b)) :=
    ⟨fun a b c => keyLEP_trans (key a) (key b) (key c)⟩
  exact @List.sorted_insertionSort ℕ (fun a b => keyLEP (key a) (key b))
    (fun a b => inferInstance) htot htr (List.range n)

lemma lookupD_zip_getD (d : ℤ) (ks vs : List ℕ) (hnd : ks.Nodup)
    (hlen : ks.length = vs.length) :
    ∀ k, k < ks.length →
      lookupD (ks.zip vs) d (ks.getD k 0) = Int.ofNat (vs.getD k 0) := by
  induction ks generalizing vs with
  | nil => intro k hk; simp at hk
  | cons a ks ih =>
    intro k hk
    cases vs with
    | nil => simp at hlen
    | cons b vs =>
      have ha : a ∉ ks := (List.nodup_cons.1 hnd).1
      have hnd' : ks.Nodup := (List.nodup_cons.1 hnd).2
      have hlen' : ks.length = vs.length := by simpa using hlen
      cases k with
      | zero =>
        simp only [List.getD_cons_zero, List.zip_cons_cons]
        exact lookupD_cons_self a b (ks.zip vs) d
      | succ k =>
        have hk' : k < ks.length := by simpa using hk
        simp only [List.getD_cons_succ, List.zip_cons_cons]
        have hmem : ks.getD k 0 ∈ ks := by
          rw [List.getD_eq_getElem ks 0 hk']
          exact List.getElem_mem _
        rw [lookupD_cons_ne _ a b _ d (fun hx => ha (hx ▸ hmem))]
        exact ih vs hnd' hlen' k hk'

/-! Branch equations of `solve_assignment` and cost bookkeeping. -/

lemma assignmentOf_length (ps : List (ℕ × ℕ)) (d : ℤ) (n : ℕ) :
    (assignmentOf ps d n).length = n := by
  simp [assignmentOf]

lemma solve_sort_eq (n : ℕ) (srcF tgtF : ℕ → ℚ × ℚ × ℚ)
    (srcP tgtP : ℕ → ℚ × ℚ) (p : ℚ) (sh : List ℕ) :
    solve_assignment n srcF srcP tgtF tgtP "sort" p sh =
      PyResult.ok (assignmentOf
        ((lexsortIdx n (fun i => (luminance (srcF i), srcP i))).zip
          (lexsortIdx n (fun i => (luminance (tgtF i), tgtP i)))) 0 n) := by
  simp [solve_assignment]

lemma solve_optimal_eq (n : ℕ) (srcF tgtF : ℕ → ℚ × ℚ × ℚ)
    (srcP tgtP : ℕ → ℚ × ℚ) (p : ℚ) (sh : List ℕ) :
    solve_assignment n srcF srcP tgtF tgtP "optimal" p sh =
      PyResult.ok (assignmentOf
        ((List.range n).zip
          (linear_sum_assignment
            (compute_cost_matrix srcF tgtF srcP tgtP p) n).2) 0 n) := by
  simp [solve_assignment, linear_sum_assignment]

lemma solve_greedy_eq (n : ℕ) (srcF tgtF : ℕ → ℚ × ℚ × ℚ)
    (srcP tgtP : ℕ → ℚ × ℚ) (p : ℚ) (sh : List ℕ) :
    solve_assignment n srcF srcP tgtF tgtP "greedy" p sh =
      PyResult.ok (assignmentOf
        (greedyGo (compute_cost_matrix srcF tgtF srcP tgtP p) n sh [])
        (-1) n) := by
  simp [solve_assignment]

lemma solve_approx_eq (n : ℕ) (srcF tgtF : ℕ → ℚ × ℚ × ℚ)
    (srcP tgtP : ℕ → ℚ × ℚ) (p : ℚ) (sh : List ℕ) :
    solve_assignment n srcF srcP tgtF tgtP "approx" p sh =
      PyResult.ok (assignmentOf
        (greedyGo (compute_cost_matrix srcF tgtF srcP tgtP p) n
          (List.range n) [])
        (-1) n) := by
  simp [solve_assignment]

lemma sort_assignment_perm (n : ℕ) (skey tkey : ℕ → ℚ × ℚ × ℚ) :
    (assignmentOf ((lexsortIdx n skey).zip (lexsortIdx n tkey)) 0 n).Perm
      ((List.range n).map Int.ofNat) := by
  have h1 := lexsortIdx_length n skey
  have h2 := lexsortIdx_length n tkey
  refine assignmentOf_perm _ _ _ ?_ ?_
  · rw [List.map_fst_zip _ _ (by rw [h1, h2])]
    exact lexsortIdx_perm n skey
  · rw [List.map_snd_zip _ _ (by rw [h1, h2])]
    exact lexsortIdx_perm n tkey

lemma solve_assignment_perm (n : ℕ) (srcF tgtF : ℕ → ℚ × ℚ × ℚ)
    (srcP tgtP : ℕ → ℚ × ℚ) (alg : String) (p : ℚ) (sh : List ℕ)
    (halg : alg ∈ (["sort", "optimal", "greedy", "approx"] : List String))
    (hsh : sh.Perm (List.range n)) :
    ∃ a, solve_assignment n srcF srcP tgtF tgtP alg p sh = PyResult.ok a ∧
      a.length = n ∧ a.Perm ((List.range n).map Int.ofNat) := by
  simp only [List.mem_cons, List.not_mem_nil, or_false] at halg
  rcases halg with rfl | rfl | rfl | rfl
  · exact ⟨_, solve_sort_eq n srcF tgtF srcP tgtP p sh,
      assignmentOf_length _ _ _, sort_assignment_perm n _ _⟩
  · refine ⟨_, solve_optimal_eq n srcF tgtF srcP tgtP p sh,
      assignmentOf_length _ _ _, ?_⟩
    set cm := compute_cost_matrix srcF tgtF srcP tgtP p
    have hlen : (linear_sum_assignment cm n).2.length = n := by
      simpa using (lsa_snd_perm cm n).length_eq
    refine assignmentOf_perm _ _ _ ?_ ?_
    · rw [List.map_fst_zip _ _ (by simp [hlen])]
    · rw [List.map_snd_zip _ _ (by simp [hlen])]
      exact lsa_snd_perm cm n
  · exact ⟨_, solve_greedy_eq n srcF tgtF srcP tgtP p sh,
      assignmentOf_length _ _ _, greedy_perm _ n sh hsh⟩
  · exact ⟨_, solve_approx_eq n srcF tgtF srcP tgtP p sh,
      assignmentOf_length _ _ _, greedy_perm _ n _ (List.Perm.refl _)⟩

lemma totalCostZ_map_ofNat (cost : ℕ → ℕ → ℚ) (l : List ℕ) :
    totalCostZ cost (l.map Int.ofNat) = totalCost cost l := by
  unfold totalCostZ totalCost
  rw [List.enum_map, List.map_map]
  congr 1

lemma totalCostZ_eq_toNat (cost : ℕ → ℕ → ℚ) (l : List ℤ) :
    totalCostZ cost l = totalCost cost (l.map Int.toNat) := by
  unfold totalCostZ totalCost
  rw [List.enum_map, List.map_map]
  congr 1

lemma map_toNat_perm_range (l : List ℤ) (n : ℕ)
    (h : l.Perm ((List.range n).map Int.ofNat)) :
    (l.map Int.toNat).Perm (List.range n) := by
  have h2 := h.map Int.toNat
  rw [List.map_map] at h2
  have h3 : (List.range n).map (Int.toNat ∘ Int.ofNat) = List.range n := by
    refine (List.map_congr_left (fun x hx => ?_)).trans (List.map_id _)
    simp
  rwa [h3] at h2

/-! Claim theorems. -/

/-- C1: for every algorithm name in sort/optimal/greedy/approx and every
`N >= 0` (including `N = 0` and `N = 1`), `solve_assignment` on `N`
source and `N` target cells returns an assignment array of length `N`
that is a permutation of `[0, N)`: every value in `[0, N)` appears
exactly once. -/
theorem C1_assignment_is_permutation (n : ℕ) (srcF tgtF : ℕ → ℚ × ℚ × ℚ)
    (srcP tgtP : ℕ → ℚ × ℚ) (alg : String) (p : ℚ) (sh : List ℕ)
    (halg : alg ∈ (["sort", "optimal", "greedy", "approx"] : List String))
    (hsh : sh.Perm (List.range n)) :
    ∃ a, solve_assignment n srcF srcP tgtF tgtP alg p sh = PyResult.ok a ∧
      a.length = n ∧ a.Perm ((List.range n).map Int.ofNat) :=
  solve_assignment_perm n srcF tgtF srcP tgtP alg p sh halg hsh

/-- Witness for C1 at a concrete input: `N = 2`, greedy strategy, with a
shuffle order that is a permutation of `[0, 2)`. -/
theorem C1_witness :
    ("greedy" ∈ (["sort", "optimal", "greedy", "approx"] : List String) ∧
        ([1, 0] : List ℕ).Perm (List.range 2)) ∧
      ∃ a, solve_assignment 2 wSrcF wPos wTgtF wPos "greedy" 0 [1, 0] =
          PyResult.ok a ∧
        a.length = 2 ∧ a.Perm ((List.range 2).map Int.ofNat) :=
  ⟨⟨by decide, by decide⟩,
    C1_assignment_is_permutation 2 wSrcF wTgtF wPos wPos "greedy" 0 [1, 0]
      (by decide) (by decide)⟩

/-- C2: the bijection returned by the `optimal` strategy has total cost,
under the cost matrix `(1-p) * colorDist + p * spatialDist`, no larger
than the total cost of every other bijection on `[0, N)`, and in
particular no larger than the total cost of the assignment returned by
any other strategy on identical inputs.  (The scipy solver is modelled
by its documented minimum-cost contract.) -/
theorem C2_optimal_has_minimal_cost (n : ℕ) (srcF tgtF : ℕ → ℚ × ℚ × ℚ)
    (srcP tgtP : ℕ → ℚ × ℚ) (p : ℚ) (sh : List ℕ) :
    ∃ a, solve_assignment n srcF srcP tgtF tgtP "optimal" p sh =
        PyResult.ok a ∧
      (∀ l : List ℤ, l.Perm ((List.range n).map Int.ofNat) →
        totalCostZ (compute_cost_matrix srcF tgtF srcP tgtP p) a ≤
          totalCostZ (compute_cost_matrix srcF tgtF srcP tgtP p) l) ∧
      (∀ alg ∈ (["sort", "greedy", "approx"] : List String), ∀ sh' b,
        sh'.Perm (List.range n) →
        solve_assignment n srcF srcP tgtF tgtP alg p sh' = PyResult.ok b →
        totalCostZ (compute_cost_matrix srcF tgtF srcP tgtP p) a ≤
          totalCostZ (compute_cost_matrix srcF tgtF srcP tgtP p) b) := by
  set cm := compute_cost_matrix srcF tgtF srcP tgtP p with hcm
  have hlen : (linear_sum_assignment cm n).2.length = n := by
    simpa using (lsa_snd_perm cm n).length_eq
  have hzip : assignmentOf ((List.range n).zip (linear_sum_assignment cm n).2)
      0 n = (linear_sum_assignment cm n).2.map Int.ofNat :=
    assignmentOf_zip_range _ n hlen
  have hmin : ∀ l : List ℤ, l.Perm ((List.range n).map Int.ofNat) →
      totalCostZ cm ((linear_sum_assignment cm n).2.map Int.ofNat) ≤
        totalCostZ cm l := by
    intro l hl
    rw [totalCostZ_map_ofNat, totalCostZ_eq_toNat]
    exact lsa_min cm n _ (map_toNat_perm_range l n hl)
  refine ⟨_, solve_optimal_eq n srcF tgtF srcP tgtP p sh, ?_, ?_⟩
  · rw [hzip]
    exact hmin
  · intro alg halg sh' b hsh' hb
    rw [hzip]
    have halg' : alg ∈ (["sort", "optimal", "greedy", "approx"] :
        List String) := by
      simp only [List.mem_cons, List.not_mem_nil, or_false] at halg ⊢
      tauto
    obtain ⟨b', hb', hlen', hperm'⟩ :=
      solve_assignment_perm n srcF tgtF srcP tgtP alg p sh' halg' hsh'
    rw [hb] at hb'
    cases hb'
    exact hmin b hperm'

/-- Witness for C2 at a concrete input: `N = 2`, comparing against the
explicit bijection `[1, 0]` and against the approx strategy. -/
theorem C2_witness :
    ∃ a, solve_assignment 2 wSrcF wPos wTgtF wPos "optimal" 0 [0, 1] =
        PyResult.ok a ∧
      (∀ l : List ℤ, l.Perm ((List.range 2).map Int.ofNat) →
        totalCostZ (compute_cost_matrix wSrcF wTgtF wPos wPos 0) a ≤
          totalCostZ (compute_cost_matrix wSrcF wTgtF wPos wPos 0) l) ∧
      (∀ alg ∈ (["sort", "greedy", "approx"] : List String), ∀ sh' b,
        sh'.Perm (List.range 2) →
        solve_assignment 2 wSrcF wPos wTgtF wPos alg 0 sh' = PyResult.ok b →
        totalCostZ (compute_cost_matrix wSrcF wTgtF wPos wPos 0) a ≤
          totalCostZ (compute_cost_matrix wSrcF wTgtF wPos wPos 0) b) :=
  C2_optimal_has_minimal_cost 2 wSrcF wTgtF wPos wPos 0 [0, 1]

/-- C4 (refuting the claim as a property of the code): the greedy
strategy's visitation order and the jitter draws come from ambient
global generators (`random.shuffle`, `np.random.rand`), not from any
passed-in random source — neither `solve_assignment` nor
`generate_frames` has a seed or generator parameter.  Holding every
explicit Python argument fixed, a different ambient shuffle yields a
different greedy assignment, and a different ambient numpy draw yields
different jittered positions. -/
theorem C4_randomness_is_ambient_global :
    (∃ o₁ o₂ : List ℕ, o₁.Perm (List.range 2) ∧ o₂.Perm (List.range 2) ∧
      solve_assignment 2 wSrcF wPos wTgtF wPos "greedy" 0 o₁ ≠
        solve_assignment 2 wSrcF wPos wTgtF wPos "greedy" 0 o₂) ∧
    (∃ r₁ r₂ : ℕ → ℝ × ℝ,
      currentPos wPosR wPosR (jitterOffset r₁ 1) (1 / 2) 0 ≠
        currentPos wPosR wPosR (jitterOffset r₂ 1) (1 / 2) 0) := by
  constructor
  · refine ⟨[0, 1], [1, 0], by decide, by decide, ?_⟩
    have h1 : solve_assignment 2 wSrcF wPos wTgtF wPos "greedy" 0 [0, 1] =
        PyResult.ok [0, 1] := by
      rw [solve_greedy_eq]
      norm_num [greedyGo, argsortRow, List.insertionSort, List.orderedInsert,
        compute_cost_matrix, wSrcF, wTgtF, wPos, sqDist3, sqDist2,
        List.range_succ, List.find?, assignmentOf, lookupD]
      decide
    have h2 : solve_assignment 2 wSrcF wPos wTgtF wPos "greedy" 0 [1, 0] =
        PyResult.ok [1, 0] := by
      rw [solve_greedy_eq]
      norm_num [greedyGo, argsortRow, List.insertionSort, List.orderedInsert,
        compute_cost_matrix, wSrcF, wTgtF, wPos, sqDist3, sqDist2,
        List.range_succ, List.find?, assignmentOf, lookupD]
      decide
    rw [h1, h2]
    intro h
    exact absurd h (by decide)
  · refine ⟨wZeroR, wPosR, ?_⟩
    intro h
    have h1 := congrArg Prod.fst h
    rw [currentPos, currentPos] at h1
    simp only [jitterOffset, wZeroR, wPosR] at h1
    rw [show Real.pi * (1 / 2) = Real.pi / 2 by ring, Real.sin_pi_div_two]
    at h1
    norm_num [ease_in_out] at h1

lemma sort_rank_matches (n : ℕ) (skey tkey : ℕ → ℚ × ℚ × ℚ) (k : ℕ)
    (hk : k < n) :
    (assignmentOf ((lexsortIdx n skey).zip (lexsortIdx n tkey)) 0 n).getD
        ((lexsortIdx n skey).getD k 0) 0 =
      Int.ofNat ((lexsortIdx n tkey).getD k 0) := by
  have hsl : (lexsortIdx n skey).length = n := lexsortIdx_length n skey
  have htl : (lexsortIdx n tkey).length = n := lexsortIdx_length n tkey
  have hnd : (lexsortIdx n skey).Nodup :=
    (lexsortIdx_perm n skey).symm.nodup (List.nodup_range n)
  have hkk : k < (lexsortIdx n skey).length := by omega
  have hj : (lexsortIdx n skey).getD k 0 ∈ lexsortIdx n skey := by
    rw [List.getD_eq_getElem _ _ hkk]
    exact List.getElem_mem _
  have hjn : (lexsortIdx n skey).getD k 0 < n :=
    List.mem_range.1 ((lexsortIdx_perm n skey).mem_iff.1 hj)
  have h1 : (assignmentOf ((lexsortIdx n skey).zip (lexsortIdx n tkey)) 0
      n).getD ((lexsortIdx n skey).getD k 0) 0 =
      lookupD ((lexsortIdx n skey).zip (lexsortIdx n tkey)) 0
        ((lexsortIdx n skey).getD k 0) := by
    unfold assignmentOf
    rw [List.getD_eq_getElem _ _ (by simpa using hjn)]
    rw [List.getElem_map]
    simp
  rw [h1]
  exact lookupD_zip_getD 0 _ _ hnd (hsl.trans htl.symm) k hkk

/-- C5: the `sort` strategy computes luminance
`0.299 R + 0.587 G + 0.114 B` per cell, ranks source and target indices
independently by ascending lexicographic `(luminance, row, col)` key,
maps the `k`-th ranked source index to the `k`-th ranked target index
for all `k`, and never reads `proximity_importance` (nor the ambient
shuffle): its output is invariant under changing them. -/
theorem C5_sort_strategy (n : ℕ) (srcF tgtF : ℕ → ℚ × ℚ × ℚ)
    (srcP tgtP : ℕ → ℚ × ℚ) (p₁ p₂ : ℚ) (sh₁ sh₂ : List ℕ) :
    (solve_assignment n srcF srcP tgtF tgtP "sort" p₁ sh₁ =
        solve_assignment n srcF srcP tgtF tgtP "sort" p₂ sh₂) ∧
      ((lexsortIdx n (fun i => (luminance (srcF i), srcP i))).Perm
          (List.range n) ∧
        (lexsortIdx n (fun i => (luminance (tgtF i), tgtP i))).Perm
          (List.range n)) ∧
      (((lexsortIdx n (fun i => (luminance (srcF i), srcP i))).map
          (fun i => (luminance (srcF i), srcP i))).Pairwise keyLEP ∧
        ((lexsortIdx n (fun i => (luminance (tgtF i), tgtP i))).map
          (fun i => (luminance (tgtF i), tgtP i))).Pairwise keyLEP) ∧
      ∃ a, solve_assignment n srcF srcP tgtF tgtP "sort" p₁ sh₁ =
          PyResult.ok a ∧
        ∀ k, k < n →
          a.getD ((lexsortIdx n
              (fun i => (luminance (srcF i), srcP i))).getD k 0) 0 =
            Int.ofNat ((lexsortIdx n
              (fun i => (luminance (tgtF i), tgtP i))).getD k 0) := by
  refine ⟨?_, ⟨lexsortIdx_perm n _, lexsortIdx_perm n _⟩,
    ⟨lexsortIdx_sorted n _, lexsortIdx_sorted n _⟩,
    _, solve_sort_eq n srcF tgtF srcP tgtP p₁ sh₁, ?_⟩
  · rw [solve_sort_eq, solve_sort_eq]
  · intro k hk
    exact sort_rank_matches n _ _ k hk

/-- Witness for C5 at a concrete input: the `sort` strategy's result at
`N = 2` does not change when `proximity_importance` and the ambient
shuffle change. -/
theorem C5_witness :
    solve_assignment 2 wSrcF wPos wTgtF wPos "sort" 0 [] =
      solve_assignment 2 wSrcF wPos wTgtF wPos "sort" 1 [0, 1] :=
  (C5_sort_strategy 2 wSrcF wTgtF wPos wPos 0 1 [] [0, 1]).1

lemma generate_frames_eq (n : ℕ) (srcCells : ℕ → ℕ × ℕ → Color)
    (srcPos tgtPos : ℕ → ℝ × ℝ) (tgtCells : ℕ → ℕ × ℕ → Color)
    (assignment : ℕ → ℕ) (duration fps : ℚ) (outputSize : ℕ)
    (jitterAmount : ℝ) (cellH cellW : ℕ) (particleScale : ℝ)
    (shape : String) (colorMix : ℝ) (holdStart holdEnd : ℚ)
    (rand : ℕ → ℝ × ℝ)
    (resample : (ℕ × ℕ → Color) → ℕ → ℕ → (ℕ × ℕ → Color))
    (ellipse : ℕ → ℕ → ℕ × ℕ → Bool) :
    generate_frames n srcCells srcPos tgtPos tgtCells assignment duration fps
        outputSize jitterAmount cellH cellW particleScale shape colorMix
        holdStart holdEnd rand resample ellipse =
      List.replicate (pyTruncQ (holdStart * fps)).toNat
        (frameAt n srcCells srcPos tgtPos tgtCells assignment outputSize
          jitterAmount cellH cellW particleScale shape colorMix rand resample
          ellipse 0) ++
      (List.range (pyTruncQ (duration * fps)).toNat).map (fun (f : ℕ) =>
        frameAt n srcCells srcPos tgtPos tgtCells assignment outputSize
          jitterAmount cellH cellW particleScale shape colorMix rand resample
          ellipse
          (if 1 < (pyTruncQ (duration * fps)).toNat then
            (f : ℝ) / (((pyTruncQ (duration * fps)).toNat : ℝ) - 1)
          else 1)) ++
      List.replicate (pyTruncQ (holdEnd * fps)).toNat
        (frameAt n srcCells srcPos tgtPos tgtCells assignment outputSize
          jitterAmount cellH cellW particleScale shape colorMix rand resample
          ellipse 1) := rfl

/-- C3 as amended: the frame stream decomposes into hold-start, animated
and hold-end segments whose lengths are the Python `int()` truncations
`int(hold_start * fps)`, `int(duration * fps)` and `int(hold_end * fps)`
(not their roundings), and the total length is their sum. -/
theorem C3_frame_counts_truncated (n : ℕ) (srcCells : ℕ → ℕ × ℕ → Color)
    (srcPos tgtPos : ℕ → ℝ × ℝ) (tgtCells : ℕ → ℕ × ℕ → Color)
    (assignment : ℕ → ℕ) (duration fps : ℚ) (outputSize : ℕ)
    (jitterAmount : ℝ) (cellH cellW : ℕ) (particleScale : ℝ)
    (shape : String) (colorMix : ℝ) (holdStart holdEnd : ℚ)
    (rand : ℕ → ℝ × ℝ)
    (resample : (ℕ × ℕ → Color) → ℕ → ℕ → (ℕ × ℕ → Color))
    (ellipse : ℕ → ℕ → ℕ × ℕ → Bool) :
    ∃ first mid last,
      generate_frames n srcCells srcPos tgtPos tgtCells assignment duration
          fps outputSize jitterAmount cellH cellW particleScale shape colorMix
          holdStart holdEnd rand resample ellipse = first ++ mid ++ last ∧
      first.length = (pyTruncQ (holdStart * fps)).toNat ∧
      mid.length = (pyTruncQ (duration * fps)).toNat ∧
      last.length = (pyTruncQ (holdEnd * fps)).toNat ∧
      (generate_frames n srcCells srcPos tgtPos tgtCells assignment duration
          fps outputSize jitterAmount cellH cellW particleScale shape colorMix
          holdStart holdEnd rand resample ellipse).length =
        (pyTruncQ (holdStart * fps)).toNat + (pyTruncQ (duration * fps)).toNat
          + (pyTruncQ (holdEnd * fps)).toNat := by
  rw [generate_frames_eq]
  refine ⟨_, _, _, rfl, ?_, ?_, ?_, ?_⟩
  · rw [List.length_replicate]
  · rw [List.length_map, List.length_range]
  · rw [List.length_replicate]
  · simp only [List.length_append, List.length_replicate, List.length_map,
      List.length_range]

/-- Counterexample to C3 as stated: at the positive combination
`duration = 3/2`, `fps = 1`, `hold_start = hold_end = 1`, the code
produces `int(3/2) = 1` animated frame and `3` frames in total, while
the claimed `round`-based formula gives `round(3/2) = 2` animated frames
and a total of `4`. -/
theorem C3_counterexample :
    ((0 : ℚ) < 3 / 2 ∧ (0 : ℚ) < 1) ∧
      ¬ (((generate_frames 1 wCellQ wPosR wPosR wCellQ (fun i => i) (3 / 2) 1
            1 0 1 1 1 "square" 0 1 1 wZeroR wResample wEllipse).length : ℤ) =
          round ((1 : ℚ) * 1) + round ((3 : ℚ) / 2 * 1) +
            round ((1 : ℚ) * 1)) := by
  refine ⟨⟨by norm_num, by norm_num⟩, ?_⟩
  have hlen : (generate_frames 1 wCellQ wPosR wPosR wCellQ (fun i => i)
      (3 / 2) 1 1 0 1 1 1 "square" 0 1 1 wZeroR wResample wEllipse).length
      = 3 := by
    have h1 : pyTruncQ ((3 : ℚ) / 2) = 1 := by
      rw [pyTruncQ]
      norm_num
    have h2 : pyTruncQ ((1 : ℚ)) = 1 := by
      rw [pyTruncQ]
      norm_num
    rw [generate_frames_eq]
    simp only [List.length_append, List.length_replicate, List.length_map,
      List.length_range]
    norm_num [h1, h2]
  rw [hlen]
  have hr1 : round ((1 : ℚ) * 1) = 1 := by norm_num
  have hr2 : round ((3 : ℚ) / 2 * 1) = 2 := by
    norm_num [round_eq]
  rw [hr1, hr2]
  norm_num

/-- C10: when the animated frame count `int(duration * fps)` is zero,
`generate_frames` yields no animated frames and no error: the stream is
the hold-start copies of the `t = 0` frame followed by the hold-end
copies of the `t = 1` frame, and is empty when both hold counts are also
zero. -/
theorem C10_no_animated_frames (n : ℕ) (srcCells : ℕ → ℕ × ℕ → Color)
    (srcPos tgtPos : ℕ → ℝ × ℝ) (tgtCells : ℕ → ℕ × ℕ → Color)
    (assignment : ℕ → ℕ) (duration fps : ℚ) (outputSize : ℕ)
    (jitterAmount : ℝ) (cellH cellW : ℕ) (particleScale : ℝ)
    (shape : String) (colorMix : ℝ) (holdStart holdEnd : ℚ)
    (rand : ℕ → ℝ × ℝ)
    (resample : (ℕ × ℕ → Color) → ℕ → ℕ → (ℕ × ℕ → Color))
    (ellipse : ℕ → ℕ → ℕ × ℕ → Bool)
    (h : pyTruncQ (duration * fps) = 0) :
    generate_frames n srcCells srcPos tgtPos tgtCells assignment duration fps
        outputSize jitterAmount cellH cellW particleScale shape colorMix
        holdStart holdEnd rand resample ellipse =
      List.replicate (pyTruncQ (holdStart * fps)).toNat
        (frameAt n srcCells srcPos tgtPos tgtCells assignment outputSize
          jitterAmount cellH cellW particleScale shape colorMix rand resample
          ellipse 0) ++
      List.replicate (pyTruncQ (holdEnd * fps)).toNat
        (frameAt n srcCells srcPos tgtPos tgtCells assignment outputSize
          jitterAmount cellH cellW particleScale shape colorMix rand resample
          ellipse 1) ∧
    (pyTruncQ (holdStart * fps) = 0 → pyTruncQ (holdEnd * fps) = 0 →
      generate_frames n srcCells srcPos tgtPos tgtCells assignment duration
        fps outputSize jitterAmount cellH cellW particleScale shape colorMix
        holdStart holdEnd rand resample ellipse = []) := by
  constructor
  · rw [generate_frames_eq, h]
    simp
  · intro h1 h2
    rw [generate_frames_eq, h, h1, h2]
    simp

/-- Witness for C10 at a concrete input: `duration = 1/2`, `fps = 1`
gives `int(1/2) = 0` animated frames; with both holds zero the stream is
empty. -/
theorem C10_witness :
    generate_frames 1 wCellQ wPosR wPosR wCellQ (fun i => i) (1 / 2) 1 1 0 1
      1 1 "square" 0 0 0 wZeroR wResample wEllipse = [] :=
  (C10_no_animated_frames 1 wCellQ wPosR wPosR wCellQ (fun i => i) (1 / 2) 1
      1 0 1 1 1 "square" 0 0 0 wZeroR wResample wEllipse
      (by rw [pyTruncQ]; norm_num)).2
    (by rw [pyTruncQ]; norm_num) (by rw [pyTruncQ]; norm_num)

/-- C7: for every `jitter_amount > 0` and fixed other inputs, the frames
rendered at `t = 0` and `t = 1` are pixel-identical to the frames
rendered with `jitter_amount = 0`, because the jitter term is scaled by
`sin(pi * t)`, which is zero at both boundaries. -/
theorem C7_jitter_vanishes_at_boundaries (n outputSize partH partW : ℕ)
    (srcPos endPos : ℕ → ℝ × ℝ) (rand : ℕ → ℝ × ℝ) (mask : ℕ × ℕ → Bool)
    (srcParts tgtParts : ℕ → ℕ × ℕ → Color) (colorMix : ℝ) (j : ℝ)
    (hj : 0 < j) :
    render_frame n outputSize partH partW srcPos endPos (jitterOffset rand j)
        mask srcParts tgtParts colorMix 0 =
      render_frame n outputSize partH partW srcPos endPos
        (jitterOffset rand 0) mask srcParts tgtParts colorMix 0 ∧
    render_frame n outputSize partH partW srcPos endPos (jitterOffset rand j)
        mask srcParts tgtParts colorMix 1 =
      render_frame n outputSize partH partW srcPos endPos
        (jitterOffset rand 0) mask srcParts tgtParts colorMix 1 := by
  have key : ∀ (t : ℝ), Real.sin (Real.pi * t) = 0 →
      ∀ i, currentPos srcPos endPos (jitterOffset rand j) t i =
        currentPos srcPos endPos (jitterOffset rand 0) t i := by
    intro t ht i
    rw [currentPos, currentPos, ht]
    simp
  have htl : ∀ (t : ℝ), Real.sin (Real.pi * t) = 0 →
      (fun i => topLeft outputSize partH partW
        (currentPos srcPos endPos (jitterOffset rand j) t i)) =
      (fun i => topLeft outputSize partH partW
        (currentPos srcPos endPos (jitterOffset rand 0) t i)) := by
    intro t ht
    funext i
    exact congrArg (topLeft outputSize partH partW) (key t ht i)
  constructor
  · rw [render_frame, render_frame, htl 0 (by rw [mul_zero, Real.sin_zero])]
  · rw [render_frame, render_frame, htl 1 (by rw [mul_one, Real.sin_pi])]

/-- Witness for C7 at a concrete input: `jitter_amount = 1 > 0` with a
single centered particle. -/
theorem C7_witness :
    (0 : ℝ) < 1 ∧
      (render_frame 1 1 1 1 wPosR wPosR (jitterOffset wZeroR 1) wMask
          wSrcPart wTgtPart 0 0 =
        render_frame 1 1 1 1 wPosR wPosR (jitterOffset wZeroR 0) wMask
          wSrcPart wTgtPart 0 0 ∧
      render_frame 1 1 1 1 wPosR wPosR (jitterOffset wZeroR 1) wMask
          wSrcPart wTgtPart 0 1 =
        render_frame 1 1 1 1 wPosR wPosR (jitterOffset wZeroR 0) wMask
          wSrcPart wTgtPart 0 1) :=
  ⟨zero_lt_one,
    C7_jitter_vanishes_at_boundaries 1 1 1 1 wPosR wPosR wZeroR wMask
      wSrcPart wTgtPart 0 1 zero_lt_one⟩

/-- C6 as amended: the blend fraction is `ease_in_out t * color_mix`,
but the code applies the blend only when `color_mix > 0` and the
fraction exceeds `0.01`; for any fraction at most `0.01` — in
particular, at every `t` when `color_mix = 0` — the source particles are
rendered unmodified. -/
theorem C6_blend_only_above_threshold (n outputSize partH partW : ℕ)
    (srcPos endPos : ℕ → ℝ × ℝ) (off : ℕ → ℝ × ℝ) (mask : ℕ × ℕ → Bool)
    (srcParts tgtParts : ℕ → ℕ × ℕ → Color) (colorMix : ℝ) (t : ℝ) :
    (0 < colorMix → 1 / 100 < ease_in_out t * colorMix →
      render_frame n outputSize partH partW srcPos endPos off mask srcParts
          tgtParts colorMix t =
        blendedRender n outputSize partH partW srcPos endPos off mask
          srcParts tgtParts colorMix t) ∧
    (ease_in_out t * colorMix ≤ 1 / 100 →
      render_frame n outputSize partH partW srcPos endPos off mask srcParts
          tgtParts colorMix t =
        sourceRender n outputSize partH partW srcPos endPos off mask srcParts
          t) ∧
    (colorMix = 0 →
      render_frame n outputSize partH partW srcPos endPos off mask srcParts
          tgtParts colorMix t =
        sourceRender n outputSize partH partW srcPos endPos off mask srcParts
          t) := by
  refine ⟨?_, ?_, ?_⟩
  · intro h1 h2
    have hparts : (fun i => particleAt colorMix t (srcParts i) (tgtParts i)) =
        fun i q => blendColor (ease_in_out t * colorMix) (srcParts i q)
          (tgtParts i q) := by
      funext i
      simp only [particleAt]
      rw [if_pos ⟨h1, h2⟩]
    rw [render_frame, blendedRender, hparts]
  · intro h
    have hparts : (fun i => particleAt colorMix t (srcParts i) (tgtParts i)) =
        srcParts := by
      funext i
      simp only [particleAt]
      rw [if_neg]
      rintro ⟨h1, h2⟩
      exact absurd h2 (not_lt.2 h)
    rw [render_frame, sourceRender, hparts]
  · intro h
    have hparts : (fun i => particleAt colorMix t (srcParts i) (tgtParts i)) =
        srcParts := by
      funext i
      simp only [particleAt]
      rw [if_neg]
      rintro ⟨h1, h2⟩
      rw [h] at h1
      exact lt_irrefl 0 h1
    rw [render_frame, sourceRender, hparts]

/-- Witness for C6 (amended) at a concrete input: with `color_mix = 0`
the render equals the source-only render at `t = 1/2`. -/
theorem C6_witness :
    render_frame 1 1 1 1 wPosR wPosR wZeroR wMask wSrcPart wTgtPart 0
        (1 / 2) =
      sourceRender 1 1 1 1 wPosR wPosR wZeroR wMask wSrcPart (1 / 2) :=
  (C6_blend_only_above_threshold 1 1 1 1 wPosR wPosR wZeroR wMask wSrcPart
      wTgtPart 0 (1 / 2)).2.2 rfl

/-- Counterexample to C6 as stated: at `t = 1/2` with `color_mix = 1/50`
the blend fraction `ease_in_out(1/2) * color_mix = 1/100` is greater
than `0`, yet the rendered frame is not the blended frame — the code
skips blending for fractions at most `0.01` and pastes the pure source
particle (black) where the claimed blend would deposit `1/100` of the
white target color. -/
theorem C6_counterexample :
    0 < ease_in_out (1 / 2 : ℝ) * (1 / 50 : ℝ) ∧
      render_frame 1 1 1 1 wPosR wPosR wZeroR wMask wSrcPart wTgtPart
          (1 / 50) (1 / 2) ≠
        blendedRender 1 1 1 1 wPosR wPosR wZeroR wMask wSrcPart wTgtPart
          (1 / 50) (1 / 2) := by
  have he : ease_in_out (1 / 2 : ℝ) = 1 / 2 := by
    rw [ease_in_out]
    norm_num
  constructor
  · rw [he]
    norm_num
  · have hpos : currentPos wPosR wPosR wZeroR (1 / 2) 0 =
        ((1 : ℝ) / 2, (1 : ℝ) / 2) := by
      rw [currentPos]
      simp only [wPosR, wZeroR]
      norm_num
      ring
    have htl : topLeft 1 1 1 (currentPos wPosR wPosR wZeroR (1 / 2) 0) =
        (0, 0) := by
      rw [hpos]
      norm_num [topLeft, pyTruncR]
    have hL : render_frame 1 1 1 1 wPosR wPosR wZeroR wMask wSrcPart wTgtPart
        (1 / 50) (1 / 2) (0, 0) = (0, 0, 0) := by
      rw [render_frame, compositeFrame]
      simp only [List.range_succ, List.range_zero, List.nil_append,
        List.foldl_cons, List.foldl_nil, htl]
      norm_num [particleAt, wMask, wSrcPart, he]
    have hR : blendedRender 1 1 1 1 wPosR wPosR wZeroR wMask wSrcPart
        wTgtPart (1 / 50) (1 / 2) (0, 0) =
        ((1 : ℝ) / 100, (1 : ℝ) / 100, (1 : ℝ) / 100) := by
      rw [blendedRender, compositeFrame]
      simp only [List.range_succ, List.range_zero, List.nil_append,
        List.foldl_cons, List.foldl_nil, htl]
      norm_num [blendColor, wMask, wSrcPart, wTgtPart, he]
    intro h
    have h0 := congrFun h (0, 0)
    rw [hL, hR] at h0
    have h1 := congrArg Prod.fst h0
    norm_num at h1

lemma get_cells_pos (image : ℕ → ℕ → ℚ × ℚ × ℚ) (h w R : ℕ) (hR : 1 ≤ R)
    (hch : 1 ≤ h / R) (hcw : 1 ≤ w / R) :
    get_cells image h w (R : ℤ) = PyResult.ok
      ⟨h / R, w / R,
        (List.range (R * R)).map (fun k =>
          fun p => image (k / R * (h / R) + p.1) (k % R * (w / R) + p.2)),
        (List.range (R * R)).map (fun k =>
          ((((k / R : ℕ) : ℚ) + 1 / 2) / (R : ℚ),
            (((k % R : ℕ) : ℚ) + 1 / 2) / (R : ℚ)))⟩ := by
  unfold get_cells
  rw [if_neg (by exact_mod_cast Nat.one_le_iff_ne_zero.1 hR),
    if_neg (by simp)]
  simp only [Int.toNat_natCast]
  rw [if_neg (by omega : ¬(h / R = 0 ∨ w / R = 0))]

lemma get_cells_zero_size (image : ℕ → ℕ → ℚ × ℚ × ℚ) (h w R : ℕ)
    (hR : 1 ≤ R) (hz : h / R = 0 ∨ w / R = 0) :
    get_cells image h w (R : ℤ) =
      PyResult.error ("ValueError: cannot reshape array of size 0") := by
  unfold get_cells
  rw [if_neg (by exact_mod_cast Nat.one_le_iff_ne_zero.1 hR),
    if_neg (by simp)]
  simp only [Int.toNat_natCast]
  rw [if_pos hz]

lemma cell_index_lt (row col R : ℕ) (hrow : row < R) (hcol : col < R) :
    row * R + col < R * R := by
  calc row * R + col < row * R + R := by omega
  _ = (row + 1) * R := by ring
  _ ≤ R * R := Nat.mul_le_mul_right R (by omega)

lemma cell_pos_getD (R : ℕ) (hR : 1 ≤ R) (row col : ℕ) (hrow : row < R)
    (hcol : col < R) :
    ((List.range (R * R)).map (fun k =>
        ((((k / R : ℕ) : ℚ) + 1 / 2) / (R : ℚ),
          (((k % R : ℕ) : ℚ) + 1 / 2) / (R : ℚ)))).getD (row * R + col)
        (0, 0) =
      (((row : ℚ) + 1 / 2) / (R : ℚ), ((col : ℚ) + 1 / 2) / (R : ℚ)) := by
  have hidx : row * R + col < R * R := cell_index_lt row col R hrow hcol
  rw [List.getD_eq_getElem _ _ (by simpa using hidx)]
  rw [List.getElem_map]
  have hdiv : (row * R + col) / R = row := by
    rw [Nat.add_comm, Nat.add_mul_div_right _ _ (by omega : 0 < R),
      Nat.div_eq_of_lt hcol]
    omega
  have hmod : (row * R + col) % R = col := by
    rw [Nat.add_comm, Nat.add_mul_mod_self_right, Nat.mod_eq_of_lt hcol]
  simp only [List.getElem_range]
  rw [hdiv, hmod]

/-- C8: the Grid Partitioner fails when `R <= 0` (`ZeroDivisionError`
at `h // R` for `R = 0`, a reshape `ValueError` for `R < 0`) and when
the truncated size is `0` (`h // R = 0` or `w // R = 0`: numpy rejects
the `-1` in `grid.reshape(-1, cell_h, cell_w, c)` when the known
dimensions' product is `0`) — the failures the spec's `InvalidInput`
taxonomy abstracts; for all valid inputs it returns `N = R^2` cells in
row-major order with centers `((row + 0.5) / R, (col + 0.5) / R)`. -/
theorem C8_partitioner_validation (image : ℕ → ℕ → ℚ × ℚ × ℚ)
    (h w : ℕ) (R : ℤ) :
    (R ≤ 0 → ∃ msg, get_cells image h w R = PyResult.error msg) ∧
    (0 < R → h / R.toNat = 0 ∨ w / R.toNat = 0 →
      ∃ msg, get_cells image h w R = PyResult.error msg) ∧
    (0 < R → 1 ≤ h / R.toNat → 1 ≤ w / R.toNat →
      ∃ cd, get_cells image h w R = PyResult.ok cd ∧
        cd.cells.length = R.toNat * R.toNat ∧
        cd.cellH = h / R.toNat ∧ cd.cellW = w / R.toNat ∧
        ∀ row col, row < R.toNat → col < R.toNat →
          cd.positions.getD (row * R.toNat + col) (0, 0) =
            (((row : ℚ) + 1 / 2) / (R.toNat : ℚ),
              ((col : ℚ) + 1 / 2) / (R.toNat : ℚ))) := by
  refine ⟨?_, ?_, ?_⟩
  · intro h0
    rcases eq_or_lt_of_le h0 with h1 | h1
    · refine ⟨"ZeroDivisionError", ?_⟩
      unfold get_cells
      rw [if_pos h1]
    · refine ⟨"ValueError: negative dimensions in reshape", ?_⟩
      unfold get_cells
      rw [if_neg (by omega), if_pos h1]
  · intro h0 hz
    have hR : 1 ≤ R.toNat := by omega
    have hcast : ((R.toNat : ℤ)) = R := Int.toNat_of_nonneg (by omega)
    refine ⟨"ValueError: cannot reshape array of size 0", ?_⟩
    rw [show R = ((R.toNat : ℕ) : ℤ) from hcast.symm]
    exact get_cells_zero_size image h w R.toNat hR hz
  · intro h0 hch hcw
    have hR : 1 ≤ R.toNat := by omega
    have hcast : ((R.toNat : ℤ)) = R := Int.toNat_of_nonneg (by omega)
    rw [show R = ((R.toNat : ℕ) : ℤ) from hcast.symm,
      get_cells_pos image h w R.toNat hR hch hcw]
    refine ⟨_, rfl, ?_, rfl, rfl, ?_⟩
    · have hmax : (R ⊔ 0).toNat = R.toNat := by omega
      simp [hmax]
    intro row col hrow hcol
    simp only [Int.toNat_natCast] at hrow hcol ⊢
    exact cell_pos_getD R.toNat hR row col hrow hcol

/-- Witness for C8 at concrete inputs: a `3 x 3` image with `R = 4`
(truncated size `0`) fails, and a `4 x 4` image with `R = 2` succeeds
with `4` cells at the stated centers. -/
theorem C8_witness :
    (∃ msg, get_cells wImage 3 3 4 = PyResult.error msg) ∧
    (∃ cd, get_cells wImage 4 4 2 = PyResult.ok cd ∧
      cd.cells.length = (2 : ℤ).toNat * (2 : ℤ).toNat ∧
      cd.cellH = 4 / (2 : ℤ).toNat ∧ cd.cellW = 4 / (2 : ℤ).toNat ∧
      ∀ row col, row < (2 : ℤ).toNat → col < (2 : ℤ).toNat →
        cd.positions.getD (row * (2 : ℤ).toNat + col) (0, 0) =
          (((row : ℚ) + 1 / 2) / ((2 : ℤ).toNat : ℚ),
            ((col : ℚ) + 1 / 2) / ((2 : ℤ).toNat : ℚ))) :=
  ⟨(C8_partitioner_validation wImage 3 3 4).2.1 (by decide) (by decide),
    (C8_partitioner_validation wImage 4 4 2).2.2 (by decide) (by decide)
      (by decide)⟩

/-- C9: `get_cells` accepts non-square images: for every `H x W x 3`
image with `H >= R >= 1` and `W >= R`, it truncates each axis
independently, returns exactly `R^2` cells of shape
`(H // R, W // R, 3)` (each at least `1` pixel), raises no error, and
its positions depend only on `R`, not on the pixel data. -/
theorem C9_nonsquare_images (image1 image2 : ℕ → ℕ → ℚ × ℚ × ℚ)
    (h w R : ℕ) (hR : 1 ≤ R) (hh : R ≤ h) (hw : R ≤ w) :
    ∃ cd, get_cells image1 h w (R : ℤ) = PyResult.ok cd ∧
      cd.cells.length = R * R ∧ cd.cellH = h / R ∧ cd.cellW = w / R ∧
      1 ≤ cd.cellH ∧ 1 ≤ cd.cellW ∧
      ∃ cd2, get_cells image2 h w (R : ℤ) = PyResult.ok cd2 ∧
        cd2.positions = cd.positions := by
  have hch : 1 ≤ h / R := (Nat.one_le_div_iff (by omega)).2 hh
  have hcw : 1 ≤ w / R := (Nat.one_le_div_iff (by omega)).2 hw
  rw [get_cells_pos image1 h w R hR hch hcw,
    get_cells_pos image2 h w R hR hch hcw]
  exact ⟨_, rfl, by simp, rfl, rfl, hch, hcw, _, rfl, rfl⟩

/-- Witness for C9 at a concrete input: a `5 x 3` image with `R = 2`. -/
theorem C9_witness :
    ∃ cd, get_cells wImage 5 3 ((2 : ℕ) : ℤ) = PyResult.ok cd ∧
      cd.cells.length = 2 * 2 ∧ cd.cellH = 5 / 2 ∧ cd.cellW = 3 / 2 ∧
      1 ≤ cd.cellH ∧ 1 ≤ cd.cellW ∧
      ∃ cd2, get_cells wImage2 5 3 ((2 : ℕ) : ℤ) = PyResult.ok cd2 ∧
        cd2.positions = cd.positions :=
  C9_nonsquare_images wImage wImage2 5 3 2 (by norm_num) (by norm_num)
    (by norm_num)
